import Mathlib

/-
  Verification of the interrupt-driven ATmega UART driver (src/iuart.c,
  src/iuart.h) against its design description.

  The transmit side is modelled as a state machine over TxState: the ring
  buffer (UartBuffer with UartBufferNextFree and UartBufferNextToSend),
  the UartSendingInProgress flag, and the sequence of bytes written to the
  hardware data register UDR0 (field out).  UART0_Putchar and the
  transmit-complete interrupt handler USART_TX_vect are translated
  directly from the C source.

  The receive side models uart_getchar: the incoming hardware events
  (framing error flag FE0, data-overrun flag DOR0, or a received byte)
  are an explicit event list, the static line buffer b and the static
  drain pointer rxp form RxState, and every byte handed to UART0_Putchar
  for echo is recorded in an echo trace.
-/

set_option maxRecDepth 8000

namespace IUart

/-- UART_BUFFER_SIZE from iuart.h (256). -/
def UART_BUFFER_SIZE : Nat := 256

/-- RX_BUFSIZE from iuart.h (80). -/
def RX_BUFSIZE : Nat := 80

/-- EOF as defined by avr-libc stdio.h: the value -1. -/
def EOF : Int := -1

/-- The avr-libc constant used at iuart.c line 149 for a framing error. -/
def FDEV_EOF : Int := -2

/-- The avr-libc constant used at iuart.c line 151 for a data overrun. -/
def FDEV_ERR : Int := -1

/-- Transmit-side shared state: the ring buffer array UartBuffer, the two
indices UartBufferNextToSend and UartBufferNextFree, the flag
UartSendingInProgress, and the trace of bytes written to UDR0. -/
structure TxState where
  buf : Nat → Nat
  nextToSend : Nat
  nextFree : Nat
  sending : Bool
  out : List Nat

/-- The state established by init_iuart: both indices 0, flag clear.
The C globals have static storage, hence the array is all zero. -/
def initState : TxState :=
  { buf := fun _ => 0, nextToSend := 0, nextFree := 0, sending := false, out := [] }

/-- Index wrap-around check used after each increment in iuart.c. -/
def wrap (n : Nat) : Nat := if n = UART_BUFFER_SIZE then 0 else n

/-- The body of UART0_Putchar after the newline check (iuart.c lines 66-97):
prime the pump when no send is in progress, otherwise append at
UartBufferNextFree under the disabled TX interrupt, rolling the index back
when the advanced index would meet UartBufferNextToSend. -/
def putcharBody (c : Nat) (s : TxState) : TxState × Int :=
  if s.sending = false then
    ({ s with sending := true, out := s.out ++ [c] }, 0)
  else
    if wrap (s.nextFree + 1) = s.nextToSend then
      ({ s with buf := Function.update s.buf s.nextFree c }, EOF)
    else
      ({ s with buf := Function.update s.buf s.nextFree c,
                nextFree := wrap (s.nextFree + 1) }, 0)

/-- The transmit-complete interrupt handler USART_TX_vect (iuart.c lines
262-277): clear the flag when nothing is queued, otherwise send the byte
at UartBufferNextToSend and advance that index with wrap-around. -/
def txISR (s : TxState) : TxState :=
  if s.nextToSend = s.nextFree then { s with sending := false }
  else
    { s with sending := true,
             out := s.out ++ [s.buf s.nextToSend],
             nextToSend := wrap (s.nextToSend + 1) }

/-- n consecutive firings of the transmit-complete interrupt. -/
def txISRn : Nat → TxState → TxState
  | 0, s => s
  | n + 1, s => txISRn n (txISR s)

/-- UART0_Putchar (iuart.c lines 55-102).  A newline first emits a
carriage return through the recursive call at line 62, whose return value
is discarded.  The recursive call re-enables the TX-complete interrupt
before returning, so irqs transmit-complete firings may occur between the
carriage-return emission and the append of the original byte. -/
def UART0_Putchar_irq (c : Nat) (irqs : Nat) (s : TxState) : TxState × Int :=
  let s1 := if c = 10 then (putcharBody 13 s).1 else s
  putcharBody c (txISRn irqs s1)

/-- UART0_Putchar with no interrupt firing during the call. -/
def UART0_Putchar (c : Nat) (s : TxState) : TxState × Int :=
  UART0_Putchar_irq c 0 s

/-- Number of bytes logically queued between the two ring indices. -/
def queueLen (s : TxState) : Nat :=
  (s.nextFree + UART_BUFFER_SIZE - s.nextToSend) % UART_BUFFER_SIZE

/-- The logical queue content: the bytes from UartBufferNextToSend up to
but excluding UartBufferNextFree, in send order. -/
def queue (s : TxState) : List Nat :=
  (List.range (queueLen s)).map fun i => s.buf ((s.nextToSend + i) % UART_BUFFER_SIZE)

/-- The buffer-full test of iuart.c line 87: the advanced write index
meets the read index. -/
def isFull (s : TxState) : Prop := wrap (s.nextFree + 1) = s.nextToSend

/-- The driver treats the buffer as empty when both indices agree and no
send is in progress. -/
def isEmpty (s : TxState) : Prop := s.nextToSend = s.nextFree ∧ s.sending = false

instance (s : TxState) : Decidable (isFull s) :=
  inferInstanceAs (Decidable (wrap (s.nextFree + 1) = s.nextToSend))

instance (s : TxState) : Decidable (isEmpty s) :=
  inferInstanceAs (Decidable (s.nextToSend = s.nextFree ∧ s.sending = false))

/-- A sequence of UART0_Putchar calls; returns the final state and the
list of the return statuses, in call order. -/
def putcharSeq (cs : List Nat) (s : TxState) : TxState × List Int :=
  match cs with
  | [] => (s, [])
  | c :: rest =>
    let p := UART0_Putchar c s
    let q := putcharSeq rest p.1
    (q.1, p.2 :: q.2)

/-- Bytes actually submitted by a call sequence: each newline submits a
carriage return and then the newline. -/
def expand (cs : List Nat) : List Nat :=
  cs.flatMap fun c => if c = 10 then [13, 10] else [c]

/-- Transmit states reachable from initialization by any interleaving of
UART0_Putchar calls and transmit-complete interrupt firings. -/
inductive ReachableTx : TxState → Prop
  | init : ReachableTx initState
  | put (c irqs : Nat) (s : TxState) :
      ReachableTx s → ReachableTx (UART0_Putchar_irq c irqs s).1
  | irq (s : TxState) : ReachableTx s → ReachableTx (txISR s)

/-- One hardware occurrence observed by the uart_getchar polling loop:
framing-error flag set, data-overrun flag set, or a received byte. -/
inductive RxEvent
  | frame
  | overrun
  | byte (c : Nat)
deriving DecidableEq

/-- The static state of uart_getchar: the line buffer b and the drain
pointer rxp (none models the NULL pointer, i.e. collecting mode). -/
structure RxState where
  line : List Nat
  rxp : Option Nat
deriving DecidableEq

/-- Outcome of handling one event inside the collecting loop: either keep
looping with an updated edit buffer, or return from uart_getchar. -/
inductive StepResult
  | cont (cp : List Nat) (echo : List Nat)
  | done (v : Int) (st : RxState) (echo : List Nat)
deriving DecidableEq

/-- The visual erase sequence echoed per deleted character. -/
def eraseEcho : List Nat := [8, 32, 8]

/-- The printable test of iuart.c lines 166-167. -/
def isPrintable (c : Nat) : Bool :=
  decide ((32 ≤ c ∧ c ≤ 126) ∨ 160 ≤ c)

/-- Input normalization of iuart.c lines 153-164: carriage return becomes
newline, tab becomes a space. -/
def normIn (c0 : Nat) : Nat :=
  if c0 = 13 then 10
  else if c0 = 9 then 32
  else c0

/-- Length of the maximal run of non-space bytes at the end of the edit
buffer, those removed by the Ctrl-W loop at iuart.c lines 211-219. -/
def trailingNonSpace (cp : List Nat) : Nat :=
  (cp.reverse.takeWhile fun x => x != 32).length

/-- The common return path of uart_getchar (iuart.c lines 223-227): read
the byte at the drain pointer, advance it, and reset it to collecting
mode when the byte was the newline. -/
def drainStep (line : List Nat) (i : Nat) : Int × RxState :=
  (((line.getD i 0 : Nat) : Int),
   { line := line, rxp := if line.getD i 0 = 10 then none else some (i + 1) })

/-- One iteration of the collecting loop of uart_getchar (iuart.c lines
145-221), handling a single hardware event against the edit buffer cp.
line0 is the content the static buffer keeps when the call returns with
an error before a line is finalized. -/
def collectStep (line0 cp : List Nat) (ev : RxEvent) : StepResult :=
  match ev with
  | RxEvent.frame => StepResult.done FDEV_EOF { line := line0, rxp := none } []
  | RxEvent.overrun => StepResult.done FDEV_ERR { line := line0, rxp := none } []
  | RxEvent.byte c0 =>
    if normIn c0 = 10 then
      StepResult.done (drainStep (cp ++ [10]) 0).1 (drainStep (cp ++ [10]) 0).2 [10]
    else if isPrintable (normIn c0) then
      (if cp.length = RX_BUFSIZE - 1 then StepResult.cont cp [7]
       else StepResult.cont (cp ++ [normIn c0]) [normIn c0])
    else if normIn c0 = 3 then
      StepResult.done (-1) { line := line0, rxp := none } []
    else if normIn c0 = 8 ∨ normIn c0 = 127 then
      (if 0 < cp.length then StepResult.cont cp.dropLast eraseEcho
       else StepResult.cont cp [])
    else if normIn c0 = 18 then StepResult.cont cp (13 :: cp)
    else if normIn c0 = 21 then
      StepResult.cont [] (List.flatten (List.replicate cp.length eraseEcho))
    else if normIn c0 = 23 then
      StepResult.cont (cp.take (cp.length - trailingNonSpace cp))
        (List.flatten (List.replicate (trailingNonSpace cp) eraseEcho))
    else StepResult.cont cp []

/-- The collecting loop: consume events until a return happens; none
models blocking forever because no further event arrives.  The result
carries the returned value, the new static state, the unconsumed events
and the trace of bytes echoed through UART0_Putchar. -/
def collect (line0 cp : List Nat) (evs : List RxEvent) (echo : List Nat) :
    Option (Int × RxState × List RxEvent × List Nat) :=
  match evs with
  | [] => none
  | ev :: rest =>
    match collectStep line0 cp ev with
    | StepResult.cont cp2 e => collect line0 cp2 rest (echo ++ e)
    | StepResult.done v st e => some (v, st, rest, echo ++ e)

/-- uart_getchar (iuart.c lines 137-228): when the drain pointer is null,
run the collecting loop starting from an empty edit buffer; otherwise
serve the next byte of the completed line without touching hardware. -/
def uart_getchar (st : RxState) (evs : List RxEvent) :
    Option (Int × RxState × List RxEvent × List Nat) :=
  match st.rxp with
  | none => collect st.line [] evs []
  | some i => some ((drainStep st.line i).1, (drainStep st.line i).2, evs, [])

/-- Well-formedness of the receive state: whenever the drain pointer is
active there is a newline at or after it inside the stored line. -/
def RxWF (st : RxState) : Prop :=
  ∀ i, st.rxp = some i → ∃ j, i ≤ j ∧ j < st.line.length ∧ st.line.getD j 0 = 10

/-- Number of occurrences of pat as a contiguous segment of l. -/
def countOcc (pat l : List Nat) : Nat :=
  (List.range (l.length + 1)).countP fun i => decide ((l.drop i).take pat.length = pat)

/-- A transmit state whose ring buffer is full while a send is in
progress: the advanced write index 255+1 wraps to 0 = read index. -/
def fullS : TxState :=
  { buf := fun _ => 0, nextToSend := 0, nextFree := 255, sending := true, out := [] }

/-- Same full busy configuration, used for the newline status analysis. -/
def c9S : TxState :=
  { buf := fun _ => 0, nextToSend := 0, nextFree := 255, sending := true, out := [] }

/-- A maximal-length line of 79 printable bytes. -/
def ps79 : List Nat := List.replicate 79 65

/-- Echo trace produced by the input a, b, c, BS, BS, d, NL. -/
def c7echo : List Nat := [97, 98, 99, 8, 32, 8, 8, 32, 8, 100, 10]

theorem wrap_lt {n : Nat} (h : n < UART_BUFFER_SIZE) : wrap n = n := by
  unfold wrap UART_BUFFER_SIZE at *
  split <;> omega

theorem putcharBody_prime (c : Nat) (s : TxState) (h : s.sending = false) :
    putcharBody c s = ({ s with sending := true, out := s.out ++ [c] }, 0) := by
  simp [putcharBody, h]

theorem putcharBody_append (c : Nat) (s : TxState) (h : s.sending = true)
    (h0 : s.nextToSend = 0) (hlt : s.nextFree + 1 < UART_BUFFER_SIZE) :
    putcharBody c s =
      ({ s with buf := Function.update s.buf s.nextFree c,
                nextFree := s.nextFree + 1 }, 0) := by
  have h1 : wrap (s.nextFree + 1) = s.nextFree + 1 := wrap_lt hlt
  simp [putcharBody, h, h1, h0]

theorem putcharBody_full {s : TxState} (c : Nat) (hs : s.sending = true)
    (hf : isFull s) :
    putcharBody c s = ({ s with buf := Function.update s.buf s.nextFree c }, EOF) := by
  have hf2 : wrap (s.nextFree + 1) = s.nextToSend := hf
  simp [putcharBody, hs, hf2]

theorem putcharBody_notFull {s : TxState} (c : Nat) (hs : s.sending = true)
    (hnf : wrap (s.nextFree + 1) ≠ s.nextToSend) :
    putcharBody c s =
      ({ s with buf := Function.update s.buf s.nextFree c,
                nextFree := wrap (s.nextFree + 1) }, 0) := by
  simp [putcharBody, hs, hnf]

theorem txISR_send {s : TxState} (hne : s.nextToSend ≠ s.nextFree) :
    txISR s = { s with sending := true, out := s.out ++ [s.buf s.nextToSend],
                       nextToSend := wrap (s.nextToSend + 1) } := by
  simp [txISR, hne]

theorem txISR_idle {s : TxState} (heq : s.nextToSend = s.nextFree) :
    txISR s = { s with sending := false } := by
  simp [txISR, heq]

theorem Putchar_eq_nl (s : TxState) :
    UART0_Putchar 10 s = putcharBody 10 (putcharBody 13 s).1 := rfl

theorem Putchar_eq (c : Nat) (s : TxState) (hc : c ≠ 10) :
    UART0_Putchar c s = putcharBody c s := by
  simp [UART0_Putchar, UART0_Putchar_irq, txISRn, hc]

theorem queueLen_full {s : TxState} (hh : s.nextFree < UART_BUFFER_SIZE)
    (ht : s.nextToSend < UART_BUFFER_SIZE) (hf : isFull s) :
    queueLen s = UART_BUFFER_SIZE - 1 := by
  have hf2 : wrap (s.nextFree + 1) = s.nextToSend := hf
  unfold wrap at hf2
  unfold queueLen UART_BUFFER_SIZE at *
  split at hf2 <;> omega

theorem queue_update_free {s : TxState} (x : Nat)
    (hh : s.nextFree < UART_BUFFER_SIZE) (ht : s.nextToSend < UART_BUFFER_SIZE)
    (hf : isFull s) :
    queue { s with buf := Function.update s.buf s.nextFree x } = queue s := by
  have hlen : queueLen s = UART_BUFFER_SIZE - 1 := queueLen_full hh ht hf
  have hf2 : wrap (s.nextFree + 1) = s.nextToSend := hf
  unfold queue
  have hq : queueLen { s with buf := Function.update s.buf s.nextFree x } = queueLen s := rfl
  rw [hq]
  dsimp only
  apply List.map_congr_left
  intro i hi
  rw [List.mem_range] at hi
  apply Function.update_noteq
  unfold wrap at hf2
  unfold UART_BUFFER_SIZE at *
  split at hf2 <;> omega

/-- Claim C2: in every bounded state where the ring buffer is full and a
transmission is in progress, UART0_Putchar returns the buffer-full code
EOF and leaves the logical queue unchanged: the write index is restored,
the read index is untouched, nothing is sent to the hardware, and the
queue content is identical, so the byte is neither transmitted nor
queued. -/
theorem C2_full_rollback (c : Nat) (s : TxState)
    (hs : s.sending = true) (hf : isFull s)
    (hh : s.nextFree < UART_BUFFER_SIZE) (ht : s.nextToSend < UART_BUFFER_SIZE) :
    (UART0_Putchar c s).2 = EOF ∧
    (UART0_Putchar c s).1.nextFree = s.nextFree ∧
    (UART0_Putchar c s).1.nextToSend = s.nextToSend ∧
    (UART0_Putchar c s).1.sending = true ∧
    (UART0_Putchar c s).1.out = s.out ∧
    queue (UART0_Putchar c s).1 = queue s := by
  have hfull1 := putcharBody_full 13 hs hf
  by_cases hc : c = 10
  · subst hc
    have hs1 : ({ s with buf := Function.update s.buf s.nextFree 13 } : TxState).sending
        = true := hs
    have hf1 : isFull { s with buf := Function.update s.buf s.nextFree 13 } := hf
    have hfull2 := putcharBody_full
      (s := { s with buf := Function.update s.buf s.nextFree 13 }) 10 hs1 hf1
    rw [Putchar_eq_nl, hfull1, hfull2]
    exact ⟨rfl, rfl, rfl, hs, rfl,
      Eq.trans (queue_update_free 10 hh ht hf1) (queue_update_free 13 hh ht hf)⟩
  · have hfullc := putcharBody_full c hs hf
    rw [Putchar_eq c s hc, hfullc]
    exact ⟨rfl, rfl, rfl, hs, rfl, queue_update_free c hh ht hf⟩

theorem C2_witness :
    (UART0_Putchar 65 fullS).2 = EOF ∧
    (UART0_Putchar 65 fullS).1.nextFree = fullS.nextFree ∧
    (UART0_Putchar 65 fullS).1.nextToSend = fullS.nextToSend ∧
    (UART0_Putchar 65 fullS).1.sending = true ∧
    (UART0_Putchar 65 fullS).1.out = fullS.out ∧
    queue (UART0_Putchar 65 fullS).1 = queue fullS :=
  C2_full_rollback 65 fullS rfl (by decide) (by decide) (by decide)

/-- Claim C4: writing a newline from any idle state with an empty ring
buffer returns success, immediately sends the carriage return to the
hardware, and after the buffer drains the hardware has received exactly
the two bytes carriage return then newline, in that order; the buffer is
empty again and the sending flag is clear. -/
theorem C4_lf_emits_crlf (s : TxState) (hs : s.sending = false)
    (he : s.nextToSend = s.nextFree) (hh : s.nextFree < UART_BUFFER_SIZE) :
    (UART0_Putchar 10 s).2 = 0 ∧
    (UART0_Putchar 10 s).1.out = s.out ++ [13] ∧
    (txISRn 2 (UART0_Putchar 10 s).1).out = s.out ++ [13, 10] ∧
    (txISRn 2 (UART0_Putchar 10 s).1).sending = false ∧
    (txISRn 2 (UART0_Putchar 10 s).1).nextToSend
      = (txISRn 2 (UART0_Putchar 10 s).1).nextFree := by
  have h1 := putcharBody_prime 13 s hs
  have hw : wrap (s.nextFree + 1) ≠ s.nextToSend := by
    unfold wrap UART_BUFFER_SIZE at *
    split <;> omega
  have h2 := putcharBody_notFull
    (s := { s with sending := true, out := s.out ++ [13] }) 10 rfl hw
  rw [Putchar_eq_nl, h1]
  dsimp only
  rw [h2]
  dsimp only
  simp only [txISRn]
  have hne : ({ s with
      sending := true,
      out := s.out ++ [13],
      buf := Function.update s.buf s.nextFree 10,
      nextFree := wrap (s.nextFree + 1) } : TxState).nextToSend
      ≠ ({ s with
      sending := true,
      out := s.out ++ [13],
      buf := Function.update s.buf s.nextFree 10,
      nextFree := wrap (s.nextFree + 1) } : TxState).nextFree := by
    show s.nextToSend ≠ wrap (s.nextFree + 1)
    rw [he] at hw ⊢
    exact fun hx => hw hx.symm
  rw [txISR_send hne]
  simp only
  rw [he, Function.update_same]
  have hidle : ({ s with
      sending := true,
      out := (s.out ++ [13]) ++ [10],
      buf := Function.update s.buf s.nextFree 10,
      nextFree := wrap (s.nextFree + 1),
      nextToSend := wrap (s.nextFree + 1) } : TxState).nextToSend
      = ({ s with
      sending := true,
      out := (s.out ++ [13]) ++ [10],
      buf := Function.update s.buf s.nextFree 10,
      nextFree := wrap (s.nextFree + 1),
      nextToSend := wrap (s.nextFree + 1) } : TxState).nextFree := rfl
  rw [txISR_idle hidle]
  simp

theorem C4_witness :
    (UART0_Putchar 10 initState).2 = 0 ∧
    (UART0_Putchar 10 initState).1.out = initState.out ++ [13] ∧
    (txISRn 2 (UART0_Putchar 10 initState).1).out = initState.out ++ [13, 10] ∧
    (txISRn 2 (UART0_Putchar 10 initState).1).sending = false ∧
    (txISRn 2 (UART0_Putchar 10 initState).1).nextToSend
      = (txISRn 2 (UART0_Putchar 10 initState).1).nextFree :=
  C4_lf_emits_crlf initState rfl rfl (by decide)

theorem expand_cons (c : Nat) (rest : List Nat) :
    expand (c :: rest) = (if c = 10 then [13, 10] else [c]) ++ expand rest := by
  simp [expand]

/-- Writing any byte sequence while a send is in progress and the queue
occupies a front span of the buffer succeeds byte for byte as long as
the submitted bytes fit strictly below the capacity. -/
theorem putcharSeq_busy (cs : List Nat) : ∀ (s : TxState),
    s.sending = true → s.nextToSend = 0 →
    s.nextFree + (expand cs).length < UART_BUFFER_SIZE →
    (putcharSeq cs s).2 = List.replicate cs.length 0 ∧
    (putcharSeq cs s).1.sending = true ∧
    (putcharSeq cs s).1.nextToSend = 0 ∧
    (putcharSeq cs s).1.nextFree = s.nextFree + (expand cs).length := by
  induction cs with
  | nil =>
    intro s hs h0 hlen
    exact ⟨by simp [putcharSeq], hs, h0, by simp [putcharSeq, expand]⟩
  | cons c rest ih =>
    intro s hs h0 hlen
    rw [expand_cons] at hlen
    by_cases hc : c = 10
    · subst hc
      rw [if_pos rfl] at hlen
      simp only [List.length_append, List.length_cons, List.length_nil] at hlen
      have hb1 := putcharBody_append 13 s hs h0 (by omega)
      have hb2 := putcharBody_append 10
        ({ s with buf := Function.update s.buf s.nextFree 13,
                  nextFree := s.nextFree + 1 }) hs h0 (by simp; omega)
      have hrest := ih ({ s with
          buf := Function.update
            (Function.update s.buf s.nextFree 13) (s.nextFree + 1) 10,
          nextFree := s.nextFree + 1 + 1 }) hs h0 (by simp; omega)
      simp only [putcharSeq, Putchar_eq_nl, hb1, hb2]
      refine ⟨?_, hrest.2.1, hrest.2.2.1, ?_⟩
      · simp only [hrest.1, expand_cons, if_pos rfl]
        simp [List.replicate_succ]
      · rw [hrest.2.2.2]
        simp only [expand_cons, if_pos rfl]
        simp
        omega
    · rw [if_neg hc] at hlen
      simp only [List.length_append, List.length_cons, List.length_nil] at hlen
      have hb := putcharBody_append c s hs h0 (by omega)
      have hrest := ih ({ s with
          buf := Function.update s.buf s.nextFree c,
          nextFree := s.nextFree + 1 }) hs h0 (by simp; omega)
      simp only [putcharSeq, Putchar_eq c s hc, hb]
      refine ⟨?_, hrest.2.1, hrest.2.2.1, ?_⟩
      · simp only [hrest.1, expand_cons, if_neg hc]
        simp [List.replicate_succ]
      · rw [hrest.2.2.2]
        simp only [expand_cons, if_neg hc]
        simp
        omega

/-- Claim C3: starting from the freshly set up driver state with no
transmit-complete interrupt firing, any sequence of UART0_Putchar calls
that submits at most UART_BUFFER_SIZE - 1 = 255 bytes (a newline
submitting a carriage return and then the newline) has every call return
0, i.e. no call reports the buffer-full error. -/
theorem C3_no_bufferfull (cs : List Nat)
    (h : (expand cs).length ≤ UART_BUFFER_SIZE - 1) :
    (putcharSeq cs initState).2 = List.replicate cs.length 0 := by
  cases cs with
  | nil => simp [putcharSeq]
  | cons c rest =>
    rw [expand_cons] at h
    by_cases hc : c = 10
    · subst hc
      rw [if_pos rfl] at h
      simp only [List.length_append, List.length_cons, List.length_nil] at h
      have hb1 := putcharBody_prime 13 initState rfl
      have hb2 := putcharBody_append 10
        ({ initState with sending := true, out := initState.out ++ [13] })
        rfl rfl (by simp [initState, UART_BUFFER_SIZE])
      have hrest := putcharSeq_busy rest ({ initState with
          sending := true,
          out := initState.out ++ [13],
          buf := Function.update initState.buf initState.nextFree 10,
          nextFree := initState.nextFree + 1 }) rfl rfl
        (by simp [initState]; unfold UART_BUFFER_SIZE at *; omega)
      simp only [putcharSeq, Putchar_eq_nl, hb1, hb2]
      rw [hrest.1]
      simp [List.replicate_succ]
    · rw [if_neg hc] at h
      simp only [List.length_append, List.length_cons, List.length_nil] at h
      have hb := putcharBody_prime c initState rfl
      have hrest := putcharSeq_busy rest ({ initState with
          sending := true,
          out := initState.out ++ [c] }) rfl rfl
        (by simp [initState]; unfold UART_BUFFER_SIZE at *; omega)
      simp only [putcharSeq, Putchar_eq c initState hc, hb]
      rw [hrest.1]
      simp [List.replicate_succ]

theorem C3_witness :
    (putcharSeq [72, 10] initState).2 = List.replicate 2 0 := by
  have h := C3_no_bufferfull [72, 10] (by decide)
  simpa using h

/-- Claim C1, counterexample to pairwise distinctness of the three error
codes: a hardware overrun and the abort byte 0x03 both make uart_getchar
return the same value -1, so the caller cannot tell them apart from the
returned value alone. -/
theorem C1_counterexample :
    uart_getchar { line := [], rxp := none } [RxEvent.overrun] =
      some (-1, { line := [], rxp := none }, [], []) ∧
    uart_getchar { line := [], rxp := none } [RxEvent.byte 3] =
      some (-1, { line := [], rxp := none }, [], []) ∧
    FDEV_ERR = -1 ∧ FDEV_EOF = -2 :=
  ⟨by decide, by decide, by decide, by decide⟩

/-- Claim C1 (amended): uart_getchar reports a framing error with the
code -2, distinct from the other two outcomes; a hardware overrun
returns -1 and the abort byte 0x03 also returns -1, so those two
outcomes share one result code and are not distinguishable from each
other by the returned value alone. -/
theorem C1_error_codes (line : List Nat) (evs : List RxEvent) :
    uart_getchar { line := line, rxp := none } (RxEvent.frame :: evs) =
      some (FDEV_EOF, { line := line, rxp := none }, evs, []) ∧
    uart_getchar { line := line, rxp := none } (RxEvent.overrun :: evs) =
      some (FDEV_ERR, { line := line, rxp := none }, evs, []) ∧
    uart_getchar { line := line, rxp := none } (RxEvent.byte 3 :: evs) =
      some (-1, { line := line, rxp := none }, evs, []) ∧
    FDEV_EOF ≠ FDEV_ERR ∧ FDEV_ERR = -1 := by
  refine ⟨?_, ?_, ?_, by decide, rfl⟩ <;>
    simp [uart_getchar, collect, collectStep, normIn, isPrintable, FDEV_EOF, FDEV_ERR]

/-- Claim C7: feeding a, b, c, backspace, backspace, d, newline yields
the completed line "ad\n" (the call returns its first byte 97 and the
following calls drain 100 then 10), and the echoed output contains the
erase sequence backspace, space, backspace exactly twice. -/
theorem C7_edit_example :
    uart_getchar { line := [], rxp := none }
        ([97, 98, 99, 8, 8, 100, 10].map RxEvent.byte) =
      some (97, { line := [97, 100, 10], rxp := some 1 }, [], c7echo) ∧
    countOcc eraseEcho c7echo = 2 ∧
    uart_getchar { line := [97, 100, 10], rxp := some 1 } [] =
      some (100, { line := [97, 100, 10], rxp := some 2 }, [], []) ∧
    uart_getchar { line := [97, 100, 10], rxp := some 2 } [] =
      some (10, { line := [97, 100, 10], rxp := none }, [], []) :=
  ⟨by decide, by decide, by decide, by decide⟩

theorem putcharBody_bounds (c : Nat) (s : TxState)
    (h1 : s.nextToSend < UART_BUFFER_SIZE) (h2 : s.nextFree < UART_BUFFER_SIZE) :
    (putcharBody c s).1.nextToSend < UART_BUFFER_SIZE ∧
    (putcharBody c s).1.nextFree < UART_BUFFER_SIZE := by
  unfold putcharBody
  split
  · exact ⟨h1, h2⟩
  · split
    · exact ⟨h1, h2⟩
    · refine ⟨h1, ?_⟩
      show wrap (s.nextFree + 1) < UART_BUFFER_SIZE
      unfold wrap UART_BUFFER_SIZE at *
      split <;> omega

theorem txISR_bounds (s : TxState)
    (h1 : s.nextToSend < UART_BUFFER_SIZE) (h2 : s.nextFree < UART_BUFFER_SIZE) :
    (txISR s).nextToSend < UART_BUFFER_SIZE ∧
    (txISR s).nextFree < UART_BUFFER_SIZE := by
  unfold txISR
  split
  · exact ⟨h1, h2⟩
  · refine ⟨?_, h2⟩
    show wrap (s.nextToSend + 1) < UART_BUFFER_SIZE
    unfold wrap UART_BUFFER_SIZE at *
    split <;> omega

theorem txISRn_bounds (n : Nat) : ∀ (s : TxState),
    s.nextToSend < UART_BUFFER_SIZE → s.nextFree < UART_BUFFER_SIZE →
    (txISRn n s).nextToSend < UART_BUFFER_SIZE ∧
    (txISRn n s).nextFree < UART_BUFFER_SIZE := by
  induction n with
  | zero => intro s h1 h2; exact ⟨h1, h2⟩
  | succ n ih =>
    intro s h1 h2
    have h := txISR_bounds s h1 h2
    exact ih (txISR s) h.1 h.2

theorem Putchar_irq_bounds (c irqs : Nat) (s : TxState)
    (h1 : s.nextToSend < UART_BUFFER_SIZE) (h2 : s.nextFree < UART_BUFFER_SIZE) :
    (UART0_Putchar_irq c irqs s).1.nextToSend < UART_BUFFER_SIZE ∧
    (UART0_Putchar_irq c irqs s).1.nextFree < UART_BUFFER_SIZE := by
  have hs1 : (if c = 10 then (putcharBody 13 s).1 else s).nextToSend < UART_BUFFER_SIZE ∧
      (if c = 10 then (putcharBody 13 s).1 else s).nextFree < UART_BUFFER_SIZE := by
    split
    · exact putcharBody_bounds 13 s h1 h2
    · exact ⟨h1, h2⟩
  have hs2 := txISRn_bounds irqs (if c = 10 then (putcharBody 13 s).1 else s) hs1.1 hs1.2
  exact putcharBody_bounds c (txISRn irqs (if c = 10 then (putcharBody 13 s).1 else s))
    hs2.1 hs2.2

/-- Claim C5: in every state reachable from initialization by any
interleaving of UART0_Putchar calls and transmit-complete interrupt
firings, both ring indices are within the buffer bounds, and the state is
never simultaneously empty (indices equal with no send in progress) and
full (advancing the write index would meet the read index). -/
theorem C5_invariant (s : TxState) (h : ReachableTx s) :
    s.nextToSend < UART_BUFFER_SIZE ∧ s.nextFree < UART_BUFFER_SIZE ∧
    ¬ (isEmpty s ∧ isFull s) := by
  have hb : s.nextToSend < UART_BUFFER_SIZE ∧ s.nextFree < UART_BUFFER_SIZE := by
    induction h with
    | init => exact ⟨by decide, by decide⟩
    | put c irqs t ht ih => exact Putchar_irq_bounds c irqs t ih.1 ih.2
    | irq t ht ih => exact txISR_bounds t ih.1 ih.2
  refine ⟨hb.1, hb.2, ?_⟩
  intro hcon
  have hee : s.nextToSend = s.nextFree := hcon.1.1
  have hf2 : wrap (s.nextFree + 1) = s.nextToSend := hcon.2
  have hb1 := hb.1
  have hb2 := hb.2
  unfold wrap UART_BUFFER_SIZE at *
  split at hf2 <;> omega

theorem C5_witness :
    initState.nextToSend < UART_BUFFER_SIZE ∧
    initState.nextFree < UART_BUFFER_SIZE ∧
    ¬ (isEmpty initState ∧ isFull initState) :=
  C5_invariant initState ReachableTx.init

theorem collectStep_printable {c : Nat} (h : isPrintable c = true)
    (line0 cp : List Nat) :
    collectStep line0 cp (RxEvent.byte c) =
      (if cp.length = RX_BUFSIZE - 1 then StepResult.cont cp [7]
       else StepResult.cont (cp ++ [c]) [c]) := by
  have h32 : 32 ≤ c := by
    simp [isPrintable] at h
    omega
  have hn : normIn c = c := by
    unfold normIn
    rw [if_neg (by omega), if_neg (by omega)]
  simp only [collectStep, hn]
  rw [if_neg (by omega), if_pos h]

theorem collect_printables (line0 : List Nat) (ps : List Nat) :
    ∀ (cp : List Nat) (evs : List RxEvent) (echo : List Nat),
    (∀ c ∈ ps, isPrintable c = true) →
    cp.length + ps.length ≤ RX_BUFSIZE - 1 →
    collect line0 cp (ps.map RxEvent.byte ++ evs) echo =
      collect line0 (cp ++ ps) evs (echo ++ ps) := by
  induction ps with
  | nil => intro cp evs echo hp hl; simp
  | cons c rest ih =>
    intro cp evs echo hp hl
    have hc := hp c (by simp)
    have hstep := collectStep_printable hc line0 cp
    rw [if_neg (by simp [RX_BUFSIZE] at hl ⊢; omega)] at hstep
    simp only [List.map_cons, List.cons_append, collect, hstep, List.append_eq]
    rw [ih (cp ++ [c]) evs (echo ++ [c]) (fun x hx => hp x (by simp [hx]))
      (by simp [RX_BUFSIZE] at hl ⊢; omega)]
    simp

/-- Claim C6: while collecting, the first RX_BUFSIZE - 1 = 79 printable
bytes are all appended to the line buffer and echoed; any further
printable byte arriving before a terminator leaves the buffer and cursor
unchanged and echoes the bell byte 7 instead, while editing keys such as
backspace keep working on the full buffer. -/
theorem C6_line_limit (line0 ps : List Nat) (q : Nat) (evs : List RxEvent)
    (hps : ∀ c ∈ ps, isPrintable c = true)
    (hlen : ps.length = RX_BUFSIZE - 1)
    (hq : isPrintable q = true) :
    collect line0 [] (ps.map RxEvent.byte ++ evs) [] = collect line0 ps evs ps ∧
    collect line0 [] (ps.map RxEvent.byte ++ (RxEvent.byte q :: evs)) [] =
      collect line0 ps evs (ps ++ [7]) ∧
    collectStep line0 ps (RxEvent.byte q) = StepResult.cont ps [7] ∧
    collectStep line0 ps (RxEvent.byte 8) = StepResult.cont ps.dropLast eraseEcho := by
  have hpos : 0 < ps.length := by
    simp [RX_BUFSIZE] at hlen
    omega
  have hstepq := collectStep_printable hq line0 ps
  rw [if_pos hlen] at hstepq
  have h1 := collect_printables line0 ps [] evs [] hps (by simp [hlen])
  have h2 := collect_printables line0 ps [] (RxEvent.byte q :: evs) [] hps (by simp [hlen])
  refine ⟨by simpa using h1, ?_, hstepq, ?_⟩
  · rw [h2]
    simp only [List.nil_append]
    rw [collect, hstepq]
  · have hn8 : normIn 8 = 8 := rfl
    have hp8 : isPrintable 8 = false := rfl
    simp only [collectStep, hn8, hp8]
    simp [hpos]

theorem C6_witness :
    collect [] [] (ps79.map RxEvent.byte ++ [RxEvent.byte 10]) [] =
      collect [] ps79 [RxEvent.byte 10] ps79 ∧
    collect [] [] (ps79.map RxEvent.byte ++ (RxEvent.byte 66 :: [RxEvent.byte 10])) [] =
      collect [] ps79 [RxEvent.byte 10] (ps79 ++ [7]) ∧
    collectStep [] ps79 (RxEvent.byte 66) = StepResult.cont ps79 [7] ∧
    collectStep [] ps79 (RxEvent.byte 8) = StepResult.cont ps79.dropLast eraseEcho :=
  C6_line_limit [] ps79 66 [RxEvent.byte 10] (by decide) (by decide) (by decide)

/-- Claim C9: UART0_Putchar discards the status of the carriage return it
emits before a newline.  In the full busy state c9S the carriage-return
append fails with EOF and is rolled back; one transmit-complete interrupt
then drains a byte, the newline append succeeds, and the whole call
returns 0 even though the carriage return was neither sent to the
hardware nor queued. -/
theorem C9_cr_status_discarded :
    (putcharBody 13 c9S).2 = EOF ∧
    (putcharBody 13 c9S).1.nextFree = c9S.nextFree ∧
    (UART0_Putchar_irq 10 1 c9S).2 = 0 ∧
    (UART0_Putchar_irq 10 1 c9S).1.out = [0] ∧
    (queue (UART0_Putchar_irq 10 1 c9S).1).contains 13 = false ∧
    (queue (UART0_Putchar_irq 10 1 c9S).1).getLast? = some 10 := by decide

theorem getD_append_length (l : List Nat) (x d : Nat) :
    (l ++ [x]).getD l.length d = x := by
  induction l with
  | nil => rfl
  | cons a t ih => simpa using ih

/-- The collecting loop can only return either a negative error value
with the drain pointer off, or the first byte of a line just completed by
a newline, with the drain pointer set for the rest of that line. -/
theorem collectStep_done_cases {line0 cp : List Nat} {ev : RxEvent}
    {v : Int} {st : RxState} {e : List Nat}
    (h : collectStep line0 cp ev = StepResult.done v st e) :
    (v < 0 ∧ st.rxp = none) ∨
    (st = { line := cp ++ [10],
            rxp := if (cp ++ [10]).getD 0 0 = 10 then none else some 1 } ∧
     v = (((cp ++ [10]).getD 0 0 : Nat) : Int)) := by
  cases ev with
  | frame =>
    simp only [collectStep] at h
    cases h
    exact Or.inl ⟨by decide, rfl⟩
  | overrun =>
    simp only [collectStep] at h
    cases h
    exact Or.inl ⟨by decide, rfl⟩
  | byte c0 =>
    simp only [collectStep] at h
    split_ifs at h <;> cases h
    · exact Or.inr ⟨rfl, rfl⟩
    · exact Or.inl ⟨by decide, rfl⟩

theorem collect_result_cases (line0 : List Nat) (evs : List RxEvent) :
    ∀ (cp echo : List Nat) (v : Int) (st2 : RxState)
      (evs2 : List RxEvent) (echo2 : List Nat),
    collect line0 cp evs echo = some (v, st2, evs2, echo2) →
    (v < 0 ∧ st2.rxp = none) ∨
    (∃ cp2, st2 = { line := cp2 ++ [10],
                    rxp := if (cp2 ++ [10]).getD 0 0 = 10 then none else some 1 } ∧
       v = (((cp2 ++ [10]).getD 0 0 : Nat) : Int)) := by
  induction evs with
  | nil =>
    intro cp echo v st2 evs2 echo2 h
    simp [collect] at h
  | cons ev rest ih =>
    intro cp echo v st2 evs2 echo2 h
    cases hst : collectStep line0 cp ev with
    | cont cp2 e =>
      simp only [collect, hst] at h
      exact ih cp2 (echo ++ e) v st2 evs2 echo2 h
    | done vd std ed =>
      simp only [collect, hst, Option.some.injEq, Prod.mk.injEq] at h
      obtain ⟨hv, hstd, hrest, hecho⟩ := h
      subst hv
      subst hstd
      rcases collectStep_done_cases hst with hL | hR
      · exact Or.inl hL
      · exact Or.inr ⟨cp, hR⟩

/-- Claim C8: uart_getchar never hands out a byte of an incomplete line.
First conjunct: while a completed line is being drained the call touches
no hardware event, returns the byte at the drain pointer, advances the
pointer, and resets to collecting exactly when that byte is the
newline.  Second conjunct: any successfully returned byte of a
collecting call is the first byte of a line that is newline-terminated
at the moment of return, with the drain pointer set to continue in
buffer order.  Third conjunct: the invariant that an active drain
pointer always has a newline at or after it inside the stored line is
preserved by every call. -/
theorem C8_completed_lines :
    (∀ (st : RxState) (i : Nat) (evs : List RxEvent), st.rxp = some i →
      uart_getchar st evs =
        some (((st.line.getD i 0 : Nat) : Int),
          { line := st.line,
            rxp := if st.line.getD i 0 = 10 then none else some (i + 1) },
          evs, [])) ∧
    (∀ (st : RxState) (evs : List RxEvent) (v : Int) (st2 : RxState)
       (evs2 : List RxEvent) (echo2 : List Nat),
      st.rxp = none → uart_getchar st evs = some (v, st2, evs2, echo2) → 0 ≤ v →
      ∃ cp2, st2.line = cp2 ++ [10] ∧
        v = (((cp2 ++ [10]).getD 0 0 : Nat) : Int) ∧
        st2.rxp = (if (cp2 ++ [10]).getD 0 0 = 10 then none else some 1)) ∧
    (∀ (st : RxState) (evs : List RxEvent) (v : Int) (st2 : RxState)
       (evs2 : List RxEvent) (echo2 : List Nat),
      RxWF st → uart_getchar st evs = some (v, st2, evs2, echo2) → RxWF st2) := by
  refine ⟨?_, ?_, ?_⟩
  · intro st i evs hrxp
    simp [uart_getchar, hrxp, drainStep]
  · intro st evs v st2 evs2 echo2 hrxp h hv
    simp only [uart_getchar, hrxp] at h
    rcases collect_result_cases st.line evs [] [] v st2 evs2 echo2 h with hL | ⟨cp2, hst2, hvv⟩
    · omega
    · subst hst2
      exact ⟨cp2, rfl, hvv, rfl⟩
  · intro st evs v st2 evs2 echo2 hwf h
    cases hrxp : st.rxp with
    | none =>
      simp only [uart_getchar, hrxp] at h
      rcases collect_result_cases st.line evs [] [] v st2 evs2 echo2 h with hL | ⟨cp2, hst2, hvv⟩
      · intro k hk
        rw [hL.2] at hk
        cases hk
      · subst hst2
        intro k hk
        simp only at hk
        split at hk
        · cases hk
        case isFalse hne =>
          have hcpne : cp2 ≠ [] := by
            intro hnil
            subst hnil
            simp at hne
          have hpos : 0 < cp2.length := List.length_pos.mpr hcpne
          cases hk
          exact ⟨cp2.length, by omega, by simp, getD_append_length cp2 10 0⟩
    | some i =>
      simp only [uart_getchar, hrxp] at h
      obtain ⟨j, hij, hjl, hj10⟩ := hwf i hrxp
      simp only [Option.some.injEq, Prod.mk.injEq] at h
      obtain ⟨hv, hstd, hrest, hecho⟩ := h
      subst hstd
      intro k hk
      simp only [drainStep] at hk
      split at hk
      · cases hk
      case isFalse hne =>
        cases hk
        refine ⟨j, ?_, hjl, hj10⟩
        have : j ≠ i := fun hji => hne (by rw [hji] at hj10; exact hj10)
        omega

theorem C8_witness :
    uart_getchar { line := [65, 10], rxp := some 0 } [] =
      some (65, { line := [65, 10], rxp := some 1 }, [], []) := by
  have h := C8_completed_lines.1 { line := [65, 10], rxp := some 0 } 0 [] rfl
  simpa using h

/-- Claim C10: when the byte immediately before the edit cursor is a
space, Ctrl-W erases nothing: the edit buffer, the cursor position and
the echoed output are all unchanged. -/
theorem C10_ctrlw_space (line0 cp ys : List Nat) (h : cp = ys ++ [32]) :
    collectStep line0 cp (RxEvent.byte 23) = StepResult.cont cp [] := by
  subst h
  have ht : trailingNonSpace (ys ++ [32]) = 0 := by
    simp [trailingNonSpace, List.takeWhile]
  simp [collectStep, normIn, isPrintable, ht]

theorem C10_witness :
    collectStep [] [97, 32] (RxEvent.byte 23) = StepResult.cont [97, 32] [] :=
  C10_ctrlw_space [] [97, 32] [97] rfl

end IUart
